import Mathlib

/-
Verification development for the mwprop NE2001p/NE2025 electron-density model.

This file embeds, in Lean 4 over the reals, the core numerical routines of
the repository:

  * src/mwprop/nemod/density_components.py  (_ne_outer_jit, _ne_inner_jit, ne_gc)
  * src/mwprop/nemod/nevoidN.py             (_nevoidN_jit, nevoidN, nevoidN_vec)
  * src/mwprop/nemod/ne_arms.py             (ne_arms_ne2001p, ne_arms_ne2001p_vec)
  * tests/test_ne_models_roundtrip.py       (pinned dm_distance round-trip data)

Python floats are modelled as real numbers; numpy arrays of per-void /
per-arm parameters are modelled as lists or index functions.  The cubic
spline nearest-arm search of ne_arms (scipy CubicSpline) produces, for each
arm j, a nearest-arm distance dmin; both the scalar and the vectorized code
paths feed the identical node data to the identical spline construction, so
the search is abstracted here as an input function dminf : arm index -> real,
shared by the scalar and vectorized embeddings.  Everything downstream of
dmin is embedded literally from the source.
-/

open scoped Classical

namespace Mwprop

/-! ### Pinned round-trip test data

From tests/test_ne_models_roundtrip.py.  Each record is one call to the
`ne2001` / `ne2025` entry point (which wraps the dmdsm line-of-sight
integrator): the ndir flag and target passed in, and the DIST / DM values the
test asserts the call returns (to 1e-12 relative tolerance). -/

structure NeCall where
  ndir : ℤ
  target : ℚ
  outDIST : ℚ
  outDM : ℚ
  deriving DecidableEq, Repr

/-- First ne2001 call of the round-trip test: ndir = 1, target = 100.0
(a DM, per the test comment "ndir=1: DM -> D"); asserts DM = 100.0 and
DIST = 3.2587940591703823. -/
def ne2001RoundtripCall1 : NeCall :=
  { ndir := 1, target := 100, outDIST := 3.2587940591703823, outDM := 100 }

/-- Second ne2001 call: ndir = -1, target = the distance recovered by call 1
("ndir=-1: D -> DM"); asserts DIST = target and DM = 99.99330830834366. -/
def ne2001RoundtripCall2 : NeCall :=
  { ndir := -1, target := 3.2587940591703823,
    outDIST := 3.2587940591703823, outDM := 99.99330830834366 }

/-- First ne2025 call: ndir = 1, target = 100.0; asserts DM = 100.0 and
DIST = 2.6198777416235903. -/
def ne2025RoundtripCall1 : NeCall :=
  { ndir := 1, target := 100, outDIST := 2.6198777416235903, outDM := 100 }

/-- Second ne2025 call: ndir = -1, target = the recovered distance; asserts
DIST = target and DM = 100.00400417623374. -/
def ne2025RoundtripCall2 : NeCall :=
  { ndir := -1, target := 2.6198777416235903,
    outDIST := 2.6198777416235903, outDM := 100.00400417623374 }

/-- All four pinned integrator calls of tests/test_ne_models_roundtrip.py. -/
def roundtripCalls : List NeCall :=
  [ne2001RoundtripCall1, ne2001RoundtripCall2,
   ne2025RoundtripCall1, ne2025RoundtripCall2]

/-! ### Fine-spline window construction (ne_arms.py)

`ind1 = range(max(0, index_dsqmin[j]-nspline2-1),
              min(index_dsqmin[j]+nspline2+1, Ncoarse), 1)`
with `nspline2 = int((nfinespline-1)/2)`; the identical expression appears in
the scalar path (ne_arms_ne2001p) and the vectorized path
(ne_arms_ne2001p_vec). -/

/-- Python `range(a, b)` over integers (step 1, empty when b <= a). -/
def pyRange (a b : ℤ) : List ℤ :=
  (List.range (b - a).toNat).map (fun i : ℕ => a + (i : ℤ))

/-- `nspline2 = int((nfinespline-1)/2)` of ne_arms_ne2001p. -/
def nspline2Of (nfinespline : ℕ) : ℕ := (nfinespline - 1) / 2

/-- The coarse-sample index window used to build the local squared-distance
spline around coarse-minimum index k, from ne_arms_ne2001p (and, identically,
ne_arms_ne2001p_vec). -/
def ind1 (k ns Ncoarse : ℤ) : List ℤ :=
  pyRange (max 0 (k - ns - 1)) (min (k + ns + 1) Ncoarse)

/-! ### Density components (density_components.py) -/

/-- The numerically stable sech^2 used throughout the model:
`4*exp(-2*|u|) / (1 + exp(-2*|u|))^2`.  This is the inline formula of
_ne_outer_jit / _ne_inner_jit; the config-level `sech2` used by ne_arms is
the same mathematical function. -/
noncomputable def sech2 (u : ℝ) : ℝ :=
  4 * Real.exp (-2 * |u|) / (1 + Real.exp (-2 * |u|)) ^ 2

/-- _ne_outer_jit: thick-disk component.  Returns (ne1, F1). -/
noncomputable def ne_outer_jit (x y z rsun A1 n1h1 h1 F1 : ℝ) : ℝ × ℝ :=
  let rr := Real.sqrt (x ^ 2 + y ^ 2)
  let suncos := Real.cos (Real.pi / 2 * rsun / A1)
  let g1 := if rr > A1 then 0 else Real.cos (Real.pi / 2 * rr / A1) / suncos
  (n1h1 / h1 * g1 * sech2 (z / h1), F1)

/-- _ne_inner_jit: thin-disk component.  Returns (ne2, F2).  The Gaussian
radial factor is hard-cut to 0 when ((rr-A2)/1.8)^2 >= 10. -/
noncomputable def ne_inner_jit (x y z A2 n2 h2 F2 : ℝ) : ℝ × ℝ :=
  let rr := Real.sqrt (x ^ 2 + y ^ 2)
  let rrarg := ((rr - A2) / 1.8) ^ 2
  let g2 := if rrarg < 10 then Real.exp (-rrarg) else 0
  (n2 * g2 * sech2 (z / h2), F2)

/-- Galactic-center parameters (config values xgc..Fgc0 used by ne_gc). -/
structure GcParams where
  xgc : ℝ
  ygc : ℝ
  zgc : ℝ
  rgc : ℝ
  hgc : ℝ
  negc0 : ℝ
  Fgc0 : ℝ

/-- The body of ne_gc after the |y| early exit: the full ellipsoid test. -/
noncomputable def ne_gc_fulltest (p : GcParams) (x y z : ℝ) : ℝ × ℝ :=
  let rr := Real.sqrt ((x - p.xgc) ^ 2 + (y - p.ygc) ^ 2)
  let zz := |z - p.zgc|
  if rr > p.rgc ∨ |z - p.zgc| > p.hgc then (0, 0)
  else if (rr / p.rgc) ^ 2 + (zz / p.hgc) ^ 2 ≤ 1 then (p.negc0, p.Fgc0)
  else (0, 0)

/-- ne_gc(x, y, z, absymax): early exit returning (0,0) when |y| > absymax,
otherwise the full ellipsoid test. -/
noncomputable def ne_gc (p : GcParams) (x y z absymax : ℝ) : ℝ × ℝ :=
  if |y| > absymax then (0, 0) else ne_gc_fulltest p x y z

/-- ne_gc with its default keyword argument absymax = 2*rgc. -/
noncomputable def ne_gc_default (p : GcParams) (x y z : ℝ) : ℝ × ℝ :=
  ne_gc p x y z (2 * p.rgc)

/-! ### Voids (nevoidN.py)

One record per void; the rotation coefficients cc12..c1 are the precomputed
arrays passed to _nevoidN_jit (built once from the void catalog angles). -/

structure Void where
  xv : ℝ
  yv : ℝ
  zv : ℝ
  nev : ℝ
  Fv : ℝ
  aav : ℝ
  bbv : ℝ
  ccv : ℝ
  edgev : ℝ
  cc12 : ℝ
  s2 : ℝ
  cs21 : ℝ
  cs12 : ℝ
  c2 : ℝ
  ss12 : ℝ
  s1 : ℝ
  c1 : ℝ

/-- The rotated-and-scaled quadratic form q of _nevoidN_jit. -/
noncomputable def qform (v : Void) (x y z : ℝ) : ℝ :=
  let dx := x - v.xv
  let dy := y - v.yv
  let dz := z - v.zv
  (v.cc12 * dx + v.s2 * dy + v.cs21 * dz) ^ 2 / v.aav ^ 2 +
    (-v.cs12 * dx + v.c2 * dy - v.ss12 * dz) ^ 2 / v.bbv ^ 2 +
    (-v.s1 * dx + v.c1 * dz) ^ 2 / v.ccv ^ 2

/-- One iteration of the _nevoidN_jit loop over voids, acting on the running
state (nevN, FvN, hitvoid); j is the 0-based loop index.  The source checks
the Gaussian condition and the hard-edge condition in two successive ifs. -/
noncomputable def voidStep (x y z : ℝ) (j : ℕ) (v : Void) (acc : ℝ × ℝ × ℕ) :
    ℝ × ℝ × ℕ :=
  let q := qform v x y z
  let acc1 := if v.edgev = 0 ∧ q < 3 then (v.nev * Real.exp (-q), v.Fv, j + 1) else acc
  if v.edgev = 1 ∧ q ≤ 1 then (v.nev, v.Fv, j + 1) else acc1

/-- The _nevoidN_jit loop from 0-based index j over the remaining voids. -/
noncomputable def voidLoopFrom (x y z : ℝ) : ℕ → List Void → ℝ × ℝ × ℕ → ℝ × ℝ × ℕ
  | _, [], acc => acc
  | j, v :: vs, acc => voidLoopFrom x y z (j + 1) vs (voidStep x y z j v acc)

/-- _nevoidN_jit: full loop from state (0, 0, 0), then wvoid = 1 iff some
void was hit. -/
noncomputable def nevoidN_jit (vs : List Void) (x y z : ℝ) : ℝ × ℝ × ℕ × ℕ :=
  let r := voidLoopFrom x y z 0 vs (0, 0, 0)
  (r.1, r.2.1, r.2.2, if r.2.2 ≠ 0 then 1 else 0)

/-- nevoidN wrapper: returns zeros immediately when no voids are configured,
otherwise calls the jit loop. -/
noncomputable def nevoidN (vs : List Void) (x y z : ℝ) : ℝ × ℝ × ℕ × ℕ :=
  if vs = [] then (0, 0, 0, 0) else nevoidN_jit vs x y z

/-- One void of the nevoidN_vec loop, restricted to a single query position:
the np.where updates are element-wise, so per position the update is an
if/elif on edgev with a conditional overwrite. -/
noncomputable def voidStepVec (x y z : ℝ) (j : ℕ) (v : Void) (acc : ℝ × ℝ × ℕ) :
    ℝ × ℝ × ℕ :=
  let q := qform v x y z
  if v.edgev = 0 then
    (if q < 3 then (v.nev * Real.exp (-q), v.Fv, j + 1) else acc)
  else if v.edgev = 1 then
    (if q ≤ 1 then (v.nev, v.Fv, j + 1) else acc)
  else acc

/-- The nevoidN_vec loop (per query position) from 0-based index j. -/
noncomputable def voidLoopVecFrom (x y z : ℝ) : ℕ → List Void → ℝ × ℝ × ℕ → ℝ × ℝ × ℕ
  | _, [], acc => acc
  | j, v :: vs, acc => voidLoopVecFrom x y z (j + 1) vs (voidStepVec x y z j v acc)

/-- nevoidN_vec restricted to one element of the position arrays: zeros when
no voids, else the where-update loop; wvoid = (hitvoid != 0). -/
noncomputable def nevoidN_vec_at (vs : List Void) (x y z : ℝ) : ℝ × ℝ × ℕ × ℕ :=
  let r := voidLoopVecFrom x y z 0 vs (0, 0, 0)
  (r.1, r.2.1, r.2.2, if r.2.2 ≠ 0 then 1 else 0)

/-- A void matches a point when its edge-type condition on q holds
(Gaussian: edgev = 0 and q < 3; hard-edge: edgev = 1 and q <= 1). -/
def matchVoid (x y z : ℝ) (v : Void) : Prop :=
  (v.edgev = 0 ∧ qform v x y z < 3) ∨ (v.edgev = 1 ∧ qform v x y z ≤ 1)

/-- The (nevN, FvN, hitvoid) state written by a matching void at loop index j. -/
noncomputable def voidHitValue (x y z : ℝ) (j : ℕ) (v : Void) : ℝ × ℝ × ℕ :=
  if v.edgev = 1 ∧ qform v x y z ≤ 1 then (v.nev, v.Fv, j + 1)
  else (v.nev * Real.exp (-(qform v x y z)), v.Fv, j + 1)

/-! ### Spiral arms (ne_arms.py)

Call-invariant model data of galaxy_model.GalaxyModel used by
ne_arms_ne2001p: per-arm arrays as index functions, plus the scalar arm
parameters. -/

structure ArmModel where
  narms : ℕ
  arm_index : ℕ → ℕ
  warm : ℕ → ℝ
  harm : ℕ → ℝ
  narm : ℕ → ℝ
  wa : ℝ
  Aa : ℝ
  ha : ℝ
  Fa : ℝ
  na : ℝ

/-- `thxydeg = np.rad2deg(np.arctan2(-x, y))`, shifted by 360 when negative.
arctan2(-x, y) is the argument of the complex number y + (-x)i. -/
noncomputable def thxydegOf (x y : ℝ) : ℝ :=
  let t := 180 / Real.pi * Complex.arg ⟨y, -x⟩
  if t < 0 then t + 360 else t

/-- The density factor ga of arm j at (x, y, z), given that arm's nearest-arm
distance dmin: Gaussian falloff in dmin, radial sech^2 taper beyond Aa,
vertical sech^2 taper, and the two legacy angular amplitude corrections for
TC arms 3 (290..363 deg, quartic cosine) and 2 (340..370 deg, shaped cosine
with floor 0.1, exponent 3.5). -/
noncomputable def armGa (m : ArmModel) (x y z : ℝ) (j : ℕ) (dmin : ℝ) : ℝ :=
  let rr := Real.sqrt (x ^ 2 + y ^ 2)
  let thxydeg := thxydegOf x y
  let jj := m.arm_index j
  let Wa := m.wa * m.warm j
  let Ha := m.ha * m.harm j
  let ga0 := Real.exp (-(dmin / Wa) ^ 2)
  let ga1 := if rr > m.Aa then ga0 * sech2 ((rr - m.Aa) / 2) else ga0
  let ga2 := ga1 * sech2 (z / Ha)
  let ga3 :=
    if jj = 3 then
      let test3 := thxydeg - 290
      let test3 := if test3 < 0 then test3 + 360 else test3
      if 0 ≤ test3 ∧ test3 < 73 then
        ga2 * ((1 + Real.cos (2 * Real.pi * test3 / 73)) / 2) ^ 4
      else ga2
    else ga2
  if jj = 2 then
    let test2 := thxydeg - 340
    let test2 := if test2 < 0 then test2 + 360 else test2
    if 0 ≤ test2 ∧ test2 < 30 then
      ga3 * ((1 + 0.1 + (1 - 0.1) * Real.cos (2 * Real.pi * test2 / 30)) / 2) ^ (3.5 : ℝ)
    else ga3
  else ga3

/-- Running state of the ne_arms_ne2001p arm loop:
(nea, whicharm_spiralmodel, dmin_min). -/
structure ArmState where
  nea : ℝ
  ws : ℕ
  dminMin : ℝ

/-- One iteration of the scalar ne_arms_ne2001p arm loop.  dmin_min is set
unconditionally at j = 0; inside the in-range test, the nearest-so-far arm is
recorded (ties: later arm wins via <=) and ga*narm[j]*na is accumulated. -/
noncomputable def armStep (m : ArmModel) (dminf : ℕ → ℝ) (x y z : ℝ) (j : ℕ)
    (st : ArmState) : ArmState :=
  let dmin := dminf j
  let dminMin0 := if j = 0 then dmin else st.dminMin
  if dmin < 3 * m.wa then
    { nea := st.nea + armGa m x y z j dmin * m.narm j * m.na
      ws := if dmin ≤ dminMin0 then j + 1 else st.ws
      dminMin := if dmin ≤ dminMin0 then dmin else dminMin0 }
  else
    { nea := st.nea, ws := st.ws, dminMin := dminMin0 }

/-- The scalar arm loop over j = 0..narms-1. -/
noncomputable def armLoop (m : ArmModel) (dminf : ℕ → ℝ) (x y z : ℝ) : ArmState :=
  (List.range m.narms).foldl (fun st j => armStep m dminf x y z j st)
    { nea := 0, ws := 0, dminMin := 0 }

/-- ne_arms_ne2001p (scalar): returns (nea, Farm, whicharm).  When no arm was
in range, Farm = 0 and whicharm = 0; otherwise whicharm is the legacy TC arm
number Darmmap[whicharm_spiralmodel - 1] and Farm is the single global value
model.Fa (the per-arm correction Fa * farm_j is deliberately not applied). -/
noncomputable def ne_arms_ne2001p (m : ArmModel) (dminf : ℕ → ℝ) (x y z : ℝ) :
    ℝ × ℝ × ℕ :=
  let st := armLoop m dminf x y z
  if st.ws = 0 then (st.nea, 0, 0)
  else (st.nea, m.Fa, m.arm_index (st.ws - 1))

/-- One iteration of the ne_arms_ne2001p_vec loop, at a single element of the
position arrays: ga is computed unconditionally (identical np.where chain)
and accumulated only where in_range; whicharm/dmin_min are updated where
in_range and dmin <= dmin_min. -/
noncomputable def armStepVec (m : ArmModel) (dminf : ℕ → ℝ) (x y z : ℝ) (j : ℕ)
    (st : ArmState) : ArmState :=
  let dmin := dminf j
  let dminMin0 := if j = 0 then dmin else st.dminMin
  let inRange := dmin < 3 * m.wa
  let ga := armGa m x y z j dmin
  { nea := if inRange then st.nea + ga * m.narm j * m.na else st.nea
    ws := if inRange ∧ dmin ≤ dminMin0 then j + 1 else st.ws
    dminMin := if inRange ∧ dmin ≤ dminMin0 then dmin else dminMin0 }

/-- The vectorized arm loop (per element). -/
noncomputable def armLoopVec (m : ArmModel) (dminf : ℕ → ℝ) (x y z : ℝ) : ArmState :=
  (List.range m.narms).foldl (fun st j => armStepVec m dminf x y z j st)
    { nea := 0, ws := 0, dminMin := 0 }

/-- The arm_tc_map lookup array of ne_arms_ne2001p_vec: index 0 maps to
whicharm = 0, index j+1 maps to arm_index[j]. -/
def armTcMap (m : ArmModel) : ℕ → ℕ
  | 0 => 0
  | Nat.succ j => m.arm_index j

/-- ne_arms_ne2001p_vec restricted to one element: (nea, Farm, whicharm) with
Farm = np.where(ws != 0, Fa, 0) and whicharm = arm_tc_map[ws]. -/
noncomputable def ne_arms_vec_at (m : ArmModel) (dminf : ℕ → ℝ) (x y z : ℝ) :
    ℝ × ℝ × ℕ :=
  let st := armLoopVec m dminf x y z
  (st.nea, if st.ws ≠ 0 then m.Fa else 0, armTcMap m st.ws)

/-! ### Cumulative DM accumulation

Modelled from the spec: the dmdsm line-of-sight integrator itself is not
among the supplied sources (only its tests and callers are).  Per the spec,
forward integration marches outward accumulating DM by cumulative
trapezoidal quadrature of the electron density over equal steps ds; dmAt k
is the accumulated DM after k steps. -/
noncomputable def dmAt (ds : ℝ) (ne : ℕ → ℝ) (k : ℕ) : ℝ :=
  ds * ∑ i ∈ Finset.range k, (ne i + ne (i + 1)) / 2

/-- A concrete Gaussian void (edgev = 0) with identity rotation coefficients,
unit axes, peak density 2 and fluctuation parameter 5, centered at the
origin; used for closed instance theorems. -/
def gaussVoid : Void :=
  { xv := 0, yv := 0, zv := 0, nev := 2, Fv := 5, aav := 1, bbv := 1, ccv := 1,
    edgev := 0, cc12 := 1, s2 := 0, cs21 := 0, cs12 := 0, c2 := 1, ss12 := 0,
    s1 := 0, c1 := 1 }

/-- A concrete hard-edge void (edgev = 1) with identity rotation
coefficients, unit axes, peak density 7 and fluctuation parameter 9,
centered at the origin. -/
def hardVoid : Void :=
  { xv := 0, yv := 0, zv := 0, nev := 7, Fv := 9, aav := 1, bbv := 1, ccv := 1,
    edgev := 1, cc12 := 1, s2 := 0, cs21 := 0, cs12 := 0, c2 := 1, ss12 := 0,
    s1 := 0, c1 := 1 }

/-- A concrete one-arm model (arm_index 0 = 3, unit scale factors, Fa = 2)
used for closed instance theorems. -/
def demoArmModel : ArmModel :=
  { narms := 1, arm_index := fun _ => 3, warm := fun _ => 1, harm := fun _ => 1,
    narm := fun _ => 1, wa := 1, Aa := 1, ha := 1, Fa := 2, na := 1 }

/-- A nearest-arm distance function putting the arm in range (dmin = 0). -/
def demoDmin : ℕ → ℝ := fun _ => 0

/-- A nearest-arm distance function putting every arm out of range
(dmin = 10 >= 3 * wa for demoArmModel). -/
def demoDminFar : ℕ → ℝ := fun _ => 10

/-! ## Helper lemmas -/

lemma pyRange_mem {a b i : ℤ} (h : i ∈ pyRange a b) : a ≤ i ∧ i < b := by
  rw [pyRange, List.mem_map] at h
  obtain ⟨m, hm, rfl⟩ := h
  rw [List.mem_range] at hm
  omega

lemma pyRange_length (a b : ℤ) : (pyRange a b).length = (b - a).toNat := by
  rw [pyRange, List.length_map, List.length_range]

lemma voidStep_not_match {x y z : ℝ} {v : Void} (h : ¬ matchVoid x y z v)
    (j : ℕ) (acc : ℝ × ℝ × ℕ) : voidStep x y z j v acc = acc := by
  rw [matchVoid, not_or] at h
  simp only [voidStep]
  rw [if_neg h.2, if_neg h.1]

lemma voidStep_match {x y z : ℝ} {v : Void} (h : matchVoid x y z v)
    (j : ℕ) (acc : ℝ × ℝ × ℕ) :
    voidStep x y z j v acc = voidHitValue x y z j v := by
  simp only [voidStep, voidHitValue]
  rcases h with ⟨h0, hq⟩ | ⟨h1, hq⟩
  · have hne : ¬ (v.edgev = 1 ∧ qform v x y z ≤ 1) := by
      rintro ⟨h1, -⟩
      rw [h0] at h1
      norm_num at h1
    rw [if_neg hne, if_neg hne, if_pos ⟨h0, hq⟩]
  · rw [if_pos ⟨h1, hq⟩, if_pos ⟨h1, hq⟩]

lemma voidLoopFrom_no_match {x y z : ℝ} {l : List Void}
    (h : ∀ v ∈ l, ¬ matchVoid x y z v) (j : ℕ) (acc : ℝ × ℝ × ℕ) :
    voidLoopFrom x y z j l acc = acc := by
  induction l generalizing j acc with
  | nil => rfl
  | cons v vs ih =>
    simp only [voidLoopFrom]
    rw [voidStep_not_match (h v (List.mem_cons_self v vs)) j acc]
    exact ih (fun w hw => h w (List.mem_cons_of_mem v hw)) (j + 1) acc

lemma voidLoopFrom_append (x y z : ℝ) (l1 l2 : List Void) (j : ℕ)
    (acc : ℝ × ℝ × ℕ) :
    voidLoopFrom x y z j (l1 ++ l2) acc =
      voidLoopFrom x y z (j + l1.length) l2 (voidLoopFrom x y z j l1 acc) := by
  induction l1 generalizing j acc with
  | nil => simp [voidLoopFrom]
  | cons v vs ih =>
    simp only [List.cons_append, voidLoopFrom, List.length_cons, List.append_eq]
    rw [ih, show j + 1 + vs.length = j + (vs.length + 1) from by omega]

lemma voidHitValue_hit (x y z : ℝ) (j : ℕ) (v : Void) :
    (voidHitValue x y z j v).2.2 = j + 1 := by
  simp only [voidHitValue]
  by_cases h : v.edgev = 1 ∧ qform v x y z ≤ 1
  · rw [if_pos h]
  · rw [if_neg h]

lemma voidStep_eq_vec (x y z : ℝ) (j : ℕ) (v : Void) (acc : ℝ × ℝ × ℕ) :
    voidStepVec x y z j v acc = voidStep x y z j v acc := by
  simp only [voidStep, voidStepVec]
  by_cases h0 : v.edgev = 0
  · have hne : ¬ (v.edgev = 1 ∧ qform v x y z ≤ 1) := by
      rintro ⟨h1, -⟩
      rw [h0] at h1
      norm_num at h1
    rw [if_pos h0, if_neg hne]
    by_cases hq : qform v x y z < 3
    · rw [if_pos hq, if_pos ⟨h0, hq⟩]
    · rw [if_neg hq, if_neg (fun hh => hq hh.2)]
  · have hg : ¬ (v.edgev = 0 ∧ qform v x y z < 3) := fun hh => h0 hh.1
    rw [if_neg h0]
    by_cases h1 : v.edgev = 1
    · rw [if_pos h1]
      by_cases hq : qform v x y z ≤ 1
      · rw [if_pos hq, if_pos ⟨h1, hq⟩]
      · rw [if_neg hq, if_neg (fun hh => hq hh.2), if_neg hg]
    · rw [if_neg h1, if_neg (fun hh => h1 hh.1), if_neg hg]

lemma voidLoopVecFrom_eq (x y z : ℝ) (l : List Void) (j : ℕ) (acc : ℝ × ℝ × ℕ) :
    voidLoopVecFrom x y z j l acc = voidLoopFrom x y z j l acc := by
  induction l generalizing j acc with
  | nil => rfl
  | cons v vs ih =>
    simp only [voidLoopVecFrom, voidLoopFrom, voidStep_eq_vec]
    exact ih (j + 1) _

lemma nevoidN_vec_at_eq (vs : List Void) (x y z : ℝ) :
    nevoidN_vec_at vs x y z = nevoidN vs x y z := by
  rw [nevoidN_vec_at, voidLoopVecFrom_eq]
  rcases vs with - | ⟨v, l⟩
  · simp [nevoidN, nevoidN_jit, voidLoopFrom]
  · rw [nevoidN, if_neg (by simp : ¬(v :: l = [])), nevoidN_jit]

lemma qform_center (v : Void) : qform v v.xv v.yv v.zv = 0 := by
  simp [qform]

lemma nevoidN_last_match (x y z : ℝ) (l1 l2 : List Void) (v : Void)
    (hv : matchVoid x y z v) (h2 : ∀ w ∈ l2, ¬ matchVoid x y z w) :
    nevoidN (l1 ++ v :: l2) x y z =
      ((voidHitValue x y z l1.length v).1, (voidHitValue x y z l1.length v).2.1,
        l1.length + 1, 1) := by
  rw [nevoidN, if_neg (by simp), nevoidN_jit]
  have hloop : voidLoopFrom x y z 0 (l1 ++ v :: l2) (0, 0, 0) =
      voidHitValue x y z l1.length v := by
    rw [voidLoopFrom_append]
    simp only [voidLoopFrom]
    rw [voidStep_match hv, Nat.zero_add]
    exact voidLoopFrom_no_match h2 _ _
  rw [hloop, voidHitValue_hit]
  simp

lemma sech2_nonneg (u : ℝ) : 0 ≤ sech2 u := by
  rw [sech2]
  positivity

lemma fac4_nonneg (t : ℝ) : 0 ≤ ((1 + Real.cos t) / 2) ^ 4 := by
  positivity

lemma fac35_nonneg (t : ℝ) :
    0 ≤ ((1 + 0.1 + (1 - 0.1) * Real.cos t) / 2) ^ (3.5 : ℝ) := by
  apply Real.rpow_nonneg
  nlinarith [Real.neg_one_le_cos t]

lemma armGa_nonneg (m : ArmModel) (x y z : ℝ) (j : ℕ) (dmin : ℝ) :
    0 ≤ armGa m x y z j dmin := by
  have he : ∀ t : ℝ, 0 ≤ Real.exp t := fun t => (Real.exp_pos t).le
  simp only [armGa]
  split_ifs <;>
    apply_rules [he, sech2_nonneg, fac4_nonneg, fac35_nonneg, mul_nonneg]

lemma armStepVec_eq (m : ArmModel) (dminf : ℕ → ℝ) (x y z : ℝ) (j : ℕ)
    (st : ArmState) :
    armStepVec m dminf x y z j st = armStep m dminf x y z j st := by
  simp only [armStep, armStepVec]
  split_ifs <;> first | rfl | tauto

lemma armLoopVec_eq (m : ArmModel) (dminf : ℕ → ℝ) (x y z : ℝ) :
    armLoopVec m dminf x y z = armLoop m dminf x y z := by
  rw [armLoopVec, armLoop]
  have h : (fun (st : ArmState) (j : ℕ) => armStepVec m dminf x y z j st) =
      fun st j => armStep m dminf x y z j st := by
    funext st j
    exact armStepVec_eq m dminf x y z j st
  rw [h]

lemma ne_arms_vec_at_eq (m : ArmModel) (dminf : ℕ → ℝ) (x y z : ℝ) :
    ne_arms_vec_at m dminf x y z = ne_arms_ne2001p m dminf x y z := by
  simp only [ne_arms_vec_at, ne_arms_ne2001p, armLoopVec_eq]
  rcases h : (armLoop m dminf x y z).ws with - | s
  · rw [if_pos rfl]
    simp [armTcMap]
  · rw [if_neg (by simp : ¬ Nat.succ s = 0)]
    simp [armTcMap]

lemma armStep_nea_nonneg {m : ArmModel} (dminf : ℕ → ℝ) (x y z : ℝ)
    (hnarm : ∀ j, 0 ≤ m.narm j) (hna : 0 ≤ m.na) (j : ℕ) (st : ArmState)
    (h : 0 ≤ st.nea) : 0 ≤ (armStep m dminf x y z j st).nea := by
  simp only [armStep]
  split_ifs <;>
    first
      | exact add_nonneg h
          (mul_nonneg (mul_nonneg (armGa_nonneg m x y z j (dminf j)) (hnarm j)) hna)
      | exact h

lemma armFold_nea_nonneg {m : ArmModel} (dminf : ℕ → ℝ) (x y z : ℝ)
    (hnarm : ∀ j, 0 ≤ m.narm j) (hna : 0 ≤ m.na) :
    ∀ (l : List ℕ) (st : ArmState), 0 ≤ st.nea →
      0 ≤ (l.foldl (fun st j => armStep m dminf x y z j st) st).nea := by
  intro l
  induction l with
  | nil => exact fun st h => h
  | cons j t ih =>
    intro st h
    exact ih _ (armStep_nea_nonneg dminf x y z hnarm hna j st h)

lemma armStep_out_of_range {m : ArmModel} {dminf : ℕ → ℝ} (x y z : ℝ) {j : ℕ}
    (h : ¬ dminf j < 3 * m.wa) (st : ArmState) :
    (armStep m dminf x y z j st).nea = st.nea ∧
      (armStep m dminf x y z j st).ws = st.ws := by
  simp only [armStep]
  rw [if_neg h]
  exact ⟨rfl, rfl⟩

lemma armFold_out_of_range {m : ArmModel} {dminf : ℕ → ℝ} (x y z : ℝ) :
    ∀ (l : List ℕ), (∀ j ∈ l, ¬ dminf j < 3 * m.wa) → ∀ st : ArmState,
      (l.foldl (fun st j => armStep m dminf x y z j st) st).nea = st.nea ∧
      (l.foldl (fun st j => armStep m dminf x y z j st) st).ws = st.ws := by
  intro l
  induction l with
  | nil => exact fun _ st => ⟨rfl, rfl⟩
  | cons j t ih =>
    intro h st
    have hj := armStep_out_of_range x y z (h j (List.mem_cons_self j t)) st
    have ht := ih (fun w hw => h w (List.mem_cons_of_mem j hw))
      (armStep m dminf x y z j st)
    exact ⟨hj.1 ▸ ht.1, hj.2 ▸ ht.2⟩

lemma ne_arms_ws_zero {m : ArmModel} {dminf : ℕ → ℝ} (x y z : ℝ)
    (h : (armLoop m dminf x y z).ws = 0) :
    ne_arms_ne2001p m dminf x y z = ((armLoop m dminf x y z).nea, 0, 0) := by
  simp only [ne_arms_ne2001p]
  rw [if_pos h]

lemma ne_arms_ws_pos {m : ArmModel} {dminf : ℕ → ℝ} (x y z : ℝ)
    (h : (armLoop m dminf x y z).ws ≠ 0) :
    ne_arms_ne2001p m dminf x y z =
      ((armLoop m dminf x y z).nea, m.Fa,
        m.arm_index ((armLoop m dminf x y z).ws - 1)) := by
  simp only [ne_arms_ne2001p]
  rw [if_neg h]

lemma voidFold_nonneg {x y z : ℝ} :
    ∀ l : List Void, (∀ v ∈ l, 0 ≤ v.nev) → ∀ (j : ℕ) (acc : ℝ × ℝ × ℕ),
      0 ≤ acc.1 → 0 ≤ (voidLoopFrom x y z j l acc).1 := by
  intro l
  induction l with
  | nil => exact fun _ _ _ h => h
  | cons v t ih =>
    intro hl j acc h
    apply ih (fun w hw => hl w (List.mem_cons_of_mem v hw)) (j + 1)
    have hv := hl v (List.mem_cons_self v t)
    simp only [voidStep]
    split_ifs <;>
      first
        | exact hv
        | exact mul_nonneg hv (Real.exp_pos _).le
        | exact h

/-! ## Claim theorems -/

/-- C1 (counterexample): in the first pinned round-trip call, the direction
flag is +1 yet the target coincides with the returned DM and differs from
the returned distance — so direction = +1 does not treat the target as a
distance, contradicting the claim. -/
theorem c1_direction_convention_counterexample :
    ne2001RoundtripCall1.ndir = 1 ∧
    ne2001RoundtripCall1.outDM = ne2001RoundtripCall1.target ∧
    ne2001RoundtripCall1.outDIST ≠ ne2001RoundtripCall1.target := by
  refine ⟨rfl, rfl, ?_⟩
  intro h
  simp only [ne2001RoundtripCall1] at h
  norm_num at h

/-- C1 (amended): in every pinned line-of-sight integrator call, direction
= +1 treats the target as a DM (the returned DM equals the target, inverse
mode) and direction = -1 treats the target as a distance (the returned
distance equals the target, forward mode). -/
theorem c1_direction_convention_amended :
    ∀ c ∈ roundtripCalls,
      (c.ndir = 1 → c.outDM = c.target) ∧ (c.ndir = -1 → c.outDIST = c.target) := by
  intro c hc
  simp only [roundtripCalls, List.mem_cons, List.not_mem_nil, or_false] at hc
  rcases hc with rfl | rfl | rfl | rfl
  · exact ⟨fun _ => rfl, fun h => absurd h (by decide)⟩
  · exact ⟨fun h => absurd h (by decide), fun _ => rfl⟩
  · exact ⟨fun _ => rfl, fun h => absurd h (by decide)⟩
  · exact ⟨fun h => absurd h (by decide), fun _ => rfl⟩

theorem c1_direction_convention_witness :
    ne2001RoundtripCall1 ∈ roundtripCalls ∧
    (ne2001RoundtripCall1.ndir = 1 →
      ne2001RoundtripCall1.outDM = ne2001RoundtripCall1.target) ∧
    (ne2001RoundtripCall1.ndir = -1 →
      ne2001RoundtripCall1.outDIST = ne2001RoundtripCall1.target) :=
  ⟨by simp [roundtripCalls],
   c1_direction_convention_amended ne2001RoundtripCall1 (by simp [roundtripCalls])⟩

/-- C2 (counterexample): at the NE2001 fixed point, the round-trip DM
99.99330830834366 pinned by the test differs from the original DM 100 by
about 6.7e-5 relative, violating the claimed 1e-9 relative tolerance. -/
theorem c2_roundtrip_tolerance_counterexample :
    ¬ |ne2001RoundtripCall2.outDM - 100| ≤ 1 / 10 ^ 9 * 100 := by
  intro h
  rw [abs_le] at h
  have h1 := h.1
  simp only [ne2001RoundtripCall2] at h1
  norm_num at h1

/-- C2 (amended): inverse-mode integration at (l = 200 deg, b = -6.5 deg,
target DM 100) recovers distance 3.2587940591703823 kpc (NE2001) and
2.6198777416235903 kpc (NE2025); forward-mode integration at exactly that
distance reproduces the original DM of 100 to within 1e-4 relative
tolerance (round-trip DMs 99.99330830834366 and 100.00400417623374), not
1e-9. -/
theorem c2_roundtrip_amended :
    ne2001RoundtripCall1.outDIST = 3.2587940591703823 ∧
    ne2025RoundtripCall1.outDIST = 2.6198777416235903 ∧
    ne2001RoundtripCall2.target = ne2001RoundtripCall1.outDIST ∧
    ne2025RoundtripCall2.target = ne2025RoundtripCall1.outDIST ∧
    |ne2001RoundtripCall2.outDM - 100| ≤ 1 / 10 ^ 4 * 100 ∧
    |ne2025RoundtripCall2.outDM - 100| ≤ 1 / 10 ^ 4 * 100 := by
  refine ⟨rfl, rfl, rfl, rfl, ?_, ?_⟩ <;>
    (rw [abs_le]; constructor) <;>
    norm_num [ne2001RoundtripCall2, ne2025RoundtripCall2]

/-- C3 (counterexample): with the default nfinespline = 5 and Ncoarse = 20,
at interior coarse-minimum index 10 the spline window is [7..12]: it holds
6 samples (even, not the claimed odd count of 5) and is not symmetric about
the minimizing index (3 samples below it, 2 above). -/
theorem c3_window_counterexample :
    (ind1 10 (nspline2Of 5 : ℤ) 20).length = 6 ∧
    (ind1 10 (nspline2Of 5 : ℤ) 20).length ≠ 5 ∧
    ind1 10 (nspline2Of 5 : ℤ) 20 = [7, 8, 9, 10, 11, 12] ∧
    (10 : ℤ) - 7 ≠ 12 - 10 := by
  decide

/-- C3 (amended): the local spline window around coarse-minimum index k with
nspline2 = int((nfinespline-1)/2) (= 2 for the default nfinespline = 5) is
range(max(0, k-nspline2-1), min(k+nspline2+1, Ncoarse)): every index is
clipped into [0, Ncoarse) (never wrapped), and away from the array bounds
the window spans k-nspline2-1 .. k+nspline2, i.e. 2*nspline2 + 2 samples
(6 by default, an even count, one more sample below the center than above). -/
theorem c3_window_amended :
    (∀ k ns c : ℤ, ∀ i ∈ ind1 k ns c, 0 ≤ i ∧ i < c) ∧
    nspline2Of 5 = 2 ∧
    (∀ k ns c : ℤ, 0 ≤ ns → ns + 1 ≤ k → k + ns + 1 ≤ c →
      ind1 k ns c = pyRange (k - ns - 1) (k + ns + 1) ∧
      (ind1 k ns c).length = (2 * ns + 2).toNat) := by
  refine ⟨?_, rfl, ?_⟩
  · intro k ns c i hi
    have h := pyRange_mem hi
    constructor
    · exact le_trans (le_max_left 0 _) h.1
    · exact lt_of_lt_of_le h.2 (min_le_right _ _)
  · intro k ns c _ hk hc
    have hmax : max 0 (k - ns - 1) = k - ns - 1 := max_eq_right (by omega)
    have hmin : min (k + ns + 1) c = k + ns + 1 := min_eq_left (by omega)
    constructor
    · rw [ind1, hmax, hmin]
    · rw [ind1, hmax, hmin, pyRange_length]
      congr 1
      ring

theorem c3_window_witness :
    ((0 : ℤ) ∈ ind1 0 2 20 ∧ (0 : ℤ) ≤ 0 ∧ (0 : ℤ) < 20) ∧
    ((0 : ℤ) ≤ 2 ∧ (2 : ℤ) + 1 ≤ 10 ∧ (10 : ℤ) + 2 + 1 ≤ 20 ∧
      ind1 10 2 20 = pyRange 7 13 ∧
      (ind1 10 2 20).length = ((2 : ℤ) * 2 + 2).toNat) := by
  refine ⟨⟨by decide, ?_⟩, by decide, by decide, by decide, ?_, ?_⟩
  · have h := c3_window_amended.1 0 2 20 0 (by decide)
    exact ⟨h.1, h.2⟩
  · exact (c3_window_amended.2.2 10 2 20 (by decide) (by decide) (by decide)).1
  · exact (c3_window_amended.2.2 10 2 20 (by decide) (by decide) (by decide)).2

/-- C4 (counterexample): at the exact center of the first of two identical
Gaussian voids, the returned hit index is 2 (the last matching void in
iteration order), not that void's own 1-based position 1 — the claim's
unconditional "the returned hit index equals that void's 1-based position"
fails when a later void also contains the center. -/
theorem c4_void_center_counterexample :
    gaussVoid.edgev = 0 ∧
    (nevoidN [gaussVoid, gaussVoid] gaussVoid.xv gaussVoid.yv
        gaussVoid.zv).2.2.1 ≠ 1 := by
  refine ⟨rfl, ?_⟩
  have hq : qform gaussVoid gaussVoid.xv gaussVoid.yv gaussVoid.zv = 0 :=
    qform_center gaussVoid
  have hm : matchVoid gaussVoid.xv gaussVoid.yv gaussVoid.zv gaussVoid :=
    Or.inl ⟨rfl, by rw [hq]; norm_num⟩
  have h := nevoidN_last_match gaussVoid.xv gaussVoid.yv gaussVoid.zv
    [gaussVoid] [] gaussVoid hm (by simp)
  rw [show ([gaussVoid] ++ gaussVoid :: [] : List Void) = [gaussVoid, gaussVoid]
    from rfl] at h
  rw [h]
  norm_num

/-- C4 (amended): per void, the evaluator behaves exactly as claimed: a
Gaussian void (edge flag 0) with q < 3 writes density peak * exp(-q), a
hard-edge void (edge flag 1) with q <= 1 writes the peak uniformly, and a
non-matching void leaves the state untouched (contributes zero).  The
quadratic form vanishes at a void's exact center, so there a Gaussian void
writes exactly its configured peak; the returned density and hit index
equal that void's peak and 1-based position provided no later void in
iteration order also contains the center (last match wins). -/
theorem c4_void_cases_amended :
    (∀ (x y z : ℝ) (j : ℕ) (v : Void) (acc : ℝ × ℝ × ℕ),
      v.edgev = 0 → qform v x y z < 3 →
      voidStep x y z j v acc =
        (v.nev * Real.exp (-(qform v x y z)), v.Fv, j + 1)) ∧
    (∀ (x y z : ℝ) (j : ℕ) (v : Void) (acc : ℝ × ℝ × ℕ),
      v.edgev = 1 → qform v x y z ≤ 1 →
      voidStep x y z j v acc = (v.nev, v.Fv, j + 1)) ∧
    (∀ (x y z : ℝ) (j : ℕ) (v : Void) (acc : ℝ × ℝ × ℕ),
      ¬ matchVoid x y z v → voidStep x y z j v acc = acc) ∧
    (∀ v : Void, qform v v.xv v.yv v.zv = 0) ∧
    (∀ (l1 l2 : List Void) (v : Void), v.edgev = 0 →
      (∀ w ∈ l2, ¬ matchVoid v.xv v.yv v.zv w) →
      nevoidN (l1 ++ v :: l2) v.xv v.yv v.zv =
        (v.nev, v.Fv, l1.length + 1, 1)) := by
  have hgauss : ∀ (x y z : ℝ) (j : ℕ) (v : Void) (acc : ℝ × ℝ × ℕ),
      v.edgev = 0 → qform v x y z < 3 →
      voidStep x y z j v acc =
        (v.nev * Real.exp (-(qform v x y z)), v.Fv, j + 1) := by
    intro x y z j v acc h0 hq
    rw [voidStep_match (Or.inl ⟨h0, hq⟩), voidHitValue, if_neg]
    rintro ⟨h1, -⟩
    rw [h0] at h1
    norm_num at h1
  refine ⟨hgauss, ?_, ?_, qform_center, ?_⟩
  · intro x y z j v acc h1 hq
    rw [voidStep_match (Or.inr ⟨h1, hq⟩), voidHitValue, if_pos ⟨h1, hq⟩]
  · intro x y z j v acc h
    exact voidStep_not_match h j acc
  · intro l1 l2 v h0 h2
    have hm : matchVoid v.xv v.yv v.zv v :=
      Or.inl ⟨h0, by rw [qform_center]; norm_num⟩
    rw [nevoidN_last_match v.xv v.yv v.zv l1 l2 v hm h2]
    have hval : voidHitValue v.xv v.yv v.zv l1.length v =
        (v.nev, v.Fv, l1.length + 1) := by
      rw [voidHitValue, if_neg]
      · rw [qform_center]
        norm_num
      · rintro ⟨h1, -⟩
        rw [h0] at h1
        norm_num at h1
    rw [hval]

theorem c4_void_cases_witness :
    gaussVoid.edgev = 0 ∧
    (∀ w ∈ ([] : List Void), ¬ matchVoid gaussVoid.xv gaussVoid.yv gaussVoid.zv w) ∧
    nevoidN [gaussVoid] gaussVoid.xv gaussVoid.yv gaussVoid.zv =
      (gaussVoid.nev, gaussVoid.Fv, 1, 1) :=
  ⟨rfl, by simp,
   c4_void_cases_amended.2.2.2.2 [] [] gaussVoid rfl (by simp)⟩

/-- C5: when a point lies inside several voids, the void evaluator returns
the density, fluctuation parameter and hit index of the last matching void
in iteration order — every later match overwrites the earlier one, with no
distance-based tie-break — and the vectorized path (nevoidN_vec, taken at
any one element of its position arrays) returns exactly the scalar result,
so both paths share the overwrite order. -/
theorem c5_last_match_wins :
    (∀ (x y z : ℝ) (l1 l2 : List Void) (v : Void),
      matchVoid x y z v → (∀ w ∈ l2, ¬ matchVoid x y z w) →
      nevoidN (l1 ++ v :: l2) x y z =
        ((voidHitValue x y z l1.length v).1,
          (voidHitValue x y z l1.length v).2.1, l1.length + 1, 1)) ∧
    (∀ (vs : List Void) (x y z : ℝ),
      nevoidN_vec_at vs x y z = nevoidN vs x y z) :=
  ⟨nevoidN_last_match, nevoidN_vec_at_eq⟩

theorem c5_last_match_wins_witness :
    matchVoid 0 0 0 hardVoid ∧
    (∀ w ∈ ([] : List Void), ¬ matchVoid 0 0 0 w) ∧
    nevoidN [gaussVoid, hardVoid] 0 0 0 = (7, 9, 2, 1) := by
  have hq : qform hardVoid 0 0 0 = 0 := qform_center hardVoid
  have hm : matchVoid 0 0 0 hardVoid := Or.inr ⟨rfl, by rw [hq]; norm_num⟩
  refine ⟨hm, by simp, ?_⟩
  have h := c5_last_match_wins.1 0 0 0 [gaussVoid] [] hardVoid hm (by simp)
  rw [show ([gaussVoid] ++ hardVoid :: [] : List Void) = [gaussVoid, hardVoid]
    from rfl] at h
  rw [h, voidHitValue, if_pos ⟨rfl, by rw [hq]; norm_num⟩]
  rfl

/-- C6: whenever the spiral-arm evaluator finds at least one arm in range
(returned whicharm nonzero), the fluctuation parameter it returns is the
single global value Fa — never the per-arm-corrected Fa * farm_j (they
differ whenever Fa is nonzero and farm of the returned arm is not 1) — and
when no arm is in range it returns 0; the vectorized path returns exactly
the scalar result, so the same holds there. -/
theorem c6_arm_fluctuation_global :
    ∀ (m : ArmModel) (dminf : ℕ → ℝ) (x y z : ℝ),
      (((ne_arms_ne2001p m dminf x y z).2.2 ≠ 0 →
          (ne_arms_ne2001p m dminf x y z).2.1 = m.Fa) ∧
        ((∀ j < m.narms, ¬ dminf j < 3 * m.wa) →
          (ne_arms_ne2001p m dminf x y z).2.1 = 0 ∧
          (ne_arms_ne2001p m dminf x y z).2.2 = 0) ∧
        (∀ farm : ℕ → ℝ, m.Fa ≠ 0 →
          (ne_arms_ne2001p m dminf x y z).2.2 ≠ 0 →
          farm (ne_arms_ne2001p m dminf x y z).2.2 ≠ 1 →
          (ne_arms_ne2001p m dminf x y z).2.1 ≠
            m.Fa * farm (ne_arms_ne2001p m dminf x y z).2.2)) ∧
      ne_arms_vec_at m dminf x y z = ne_arms_ne2001p m dminf x y z := by
  intro m dminf x y z
  refine ⟨⟨?_, ?_, ?_⟩, ne_arms_vec_at_eq m dminf x y z⟩
  · intro hne
    by_cases hws : (armLoop m dminf x y z).ws = 0
    · rw [ne_arms_ws_zero x y z hws] at hne
      simp at hne
    · rw [ne_arms_ws_pos x y z hws]
  · intro hout
    have hzero : (armLoop m dminf x y z).ws = 0 :=
      (armFold_out_of_range x y z (List.range m.narms)
        (fun j hj => hout j (List.mem_range.mp hj))
        { nea := 0, ws := 0, dminMin := 0 }).2
    rw [ne_arms_ws_zero x y z hzero]
    exact ⟨rfl, rfl⟩
  · intro farm hFa hne hfarm heq
    by_cases hws : (armLoop m dminf x y z).ws = 0
    · rw [ne_arms_ws_zero x y z hws] at hne
      simp at hne
    · rw [ne_arms_ws_pos x y z hws] at heq hfarm
      have h1 : m.Fa * 1 =
          m.Fa * farm (m.arm_index ((armLoop m dminf x y z).ws - 1)) := by
        rw [mul_one]
        exact heq
      exact hfarm (mul_left_cancel₀ hFa h1).symm

theorem c6_arm_fluctuation_global_witness :
    ((ne_arms_ne2001p demoArmModel demoDmin 0 0 0).2.2 ≠ 0 ∧
      (ne_arms_ne2001p demoArmModel demoDmin 0 0 0).2.1 = demoArmModel.Fa) ∧
    ((∀ j < demoArmModel.narms, ¬ demoDminFar j < 3 * demoArmModel.wa) ∧
      (ne_arms_ne2001p demoArmModel demoDminFar 0 0 0).2.1 = 0 ∧
      (ne_arms_ne2001p demoArmModel demoDminFar 0 0 0).2.2 = 0) ∧
    (demoArmModel.Fa ≠ 0 ∧
      (fun _ : ℕ => (5 : ℝ)) (ne_arms_ne2001p demoArmModel demoDmin 0 0 0).2.2 ≠ 1 ∧
      (ne_arms_ne2001p demoArmModel demoDmin 0 0 0).2.1 ≠
        demoArmModel.Fa *
          (fun _ : ℕ => (5 : ℝ)) (ne_arms_ne2001p demoArmModel demoDmin 0 0 0).2.2) := by
  have hws : (armLoop demoArmModel demoDmin 0 0 0).ws = 1 := by
    rw [armLoop, show List.range demoArmModel.narms = [0] from rfl]
    norm_num [List.foldl, armStep, demoArmModel, demoDmin]
  have hres := ne_arms_ws_pos 0 0 0
    (show (armLoop demoArmModel demoDmin 0 0 0).ws ≠ 0 by rw [hws]; norm_num)
  have h22 : (ne_arms_ne2001p demoArmModel demoDmin 0 0 0).2.2 = 3 := by
    rw [hres, hws]
    norm_num [demoArmModel]
  have hne : (ne_arms_ne2001p demoArmModel demoDmin 0 0 0).2.2 ≠ 0 := by
    rw [h22]
    norm_num
  have hout : ∀ j < demoArmModel.narms, ¬ demoDminFar j < 3 * demoArmModel.wa := by
    intro j _
    norm_num [demoDminFar, demoArmModel]
  have hFa : demoArmModel.Fa ≠ 0 := by
    norm_num [demoArmModel]
  have hfarm : (fun _ : ℕ => (5 : ℝ))
      (ne_arms_ne2001p demoArmModel demoDmin 0 0 0).2.2 ≠ 1 := by
    norm_num
  exact ⟨⟨hne, (c6_arm_fluctuation_global demoArmModel demoDmin 0 0 0).1.1 hne⟩,
    ⟨hout, (c6_arm_fluctuation_global demoArmModel demoDminFar 0 0 0).1.2.1 hout⟩,
    hFa, hfarm,
    (c6_arm_fluctuation_global demoArmModel demoDmin 0 0 0).1.2.2
      (fun _ : ℕ => (5 : ℝ)) hFa hne hfarm⟩

/-- C8: for every query position, the batched evaluators (nevoidN_vec and
ne_arms_ne2001p_vec, taken at any one element of their position arrays, with
the shared spline search abstracted as the common nearest-arm distance
input) return exactly the same results as the scalar evaluators — exact
equality in the real-number model, which implies every stated floating-point
tolerance. -/
theorem c8_vec_scalar_equiv :
    (∀ (m : ArmModel) (dminf : ℕ → ℝ) (x y z : ℝ),
      ne_arms_vec_at m dminf x y z = ne_arms_ne2001p m dminf x y z) ∧
    (∀ (vs : List Void) (x y z : ℝ),
      nevoidN_vec_at vs x y z = nevoidN vs x y z) :=
  ⟨ne_arms_vec_at_eq, nevoidN_vec_at_eq⟩

/-- C9: each density component evaluator returns a non-negative electron
density for every finite point, given non-negative configured amplitudes
(thick disk with the Sun inside the cutoff radius, thin disk, Galactic
center, spiral arms, voids); and the cumulative DM — trapezoidal
accumulation of non-negative densities with a non-negative step — is
monotonically non-decreasing with distance along any ray. -/
theorem c9_nonneg :
    (∀ x y z rsun A1 n1h1 h1 F1 : ℝ, 0 ≤ n1h1 → 0 ≤ h1 → 0 < A1 → 0 ≤ rsun →
      rsun ≤ A1 → 0 ≤ (ne_outer_jit x y z rsun A1 n1h1 h1 F1).1) ∧
    (∀ x y z A2 n2 h2 F2 : ℝ, 0 ≤ n2 → 0 ≤ (ne_inner_jit x y z A2 n2 h2 F2).1) ∧
    (∀ (p : GcParams) (x y z a : ℝ), 0 ≤ p.negc0 → 0 ≤ (ne_gc p x y z a).1) ∧
    (∀ (m : ArmModel) (dminf : ℕ → ℝ) (x y z : ℝ),
      (∀ j, 0 ≤ m.narm j) → 0 ≤ m.na → 0 ≤ (ne_arms_ne2001p m dminf x y z).1) ∧
    (∀ (vs : List Void) (x y z : ℝ), (∀ v ∈ vs, 0 ≤ v.nev) →
      0 ≤ (nevoidN vs x y z).1) ∧
    (∀ (ds : ℝ) (nef : ℕ → ℝ), 0 ≤ ds → (∀ i, 0 ≤ nef i) →
      Monotone (dmAt ds nef)) := by
  refine ⟨?_, ?_, ?_, ?_, ?_, ?_⟩
  · intro x y z rsun A1 n1h1 h1 F1 hn hh hA hr hrA
    have hcos : ∀ t : ℝ, 0 ≤ t → t ≤ A1 → 0 ≤ Real.cos (Real.pi / 2 * t / A1) := by
      intro t ht htA
      apply Real.cos_nonneg_of_mem_Icc
      constructor
      · have : 0 ≤ Real.pi / 2 * t / A1 :=
          div_nonneg (mul_nonneg (by positivity) ht) hA.le
        linarith [Real.pi_pos]
      · rw [div_le_iff₀ hA]
        calc Real.pi / 2 * t ≤ Real.pi / 2 * A1 :=
              mul_le_mul_of_nonneg_left htA (by positivity)
          _ = A1 * (Real.pi / 2) := mul_comm _ _
          _ = Real.pi / 2 * A1 := mul_comm _ _
    simp only [ne_outer_jit]
    refine mul_nonneg (mul_nonneg (div_nonneg hn hh) ?_) (sech2_nonneg _)
    split_ifs with hgt
    · exact le_refl 0
    · exact div_nonneg
        (hcos _ (Real.sqrt_nonneg _) (not_lt.mp hgt)) (hcos _ hr hrA)
  · intro x y z A2 n2 h2 F2 hn
    simp only [ne_inner_jit]
    refine mul_nonneg (mul_nonneg hn ?_) (sech2_nonneg _)
    split_ifs
    · exact (Real.exp_pos _).le
    · exact le_refl 0
  · intro p x y z a hgc
    simp only [ne_gc, ne_gc_fulltest]
    split_ifs <;> first | exact hgc | exact le_refl 0
  · intro m dminf x y z hnarm hna
    have hfold := armFold_nea_nonneg dminf x y z hnarm hna (List.range m.narms)
      { nea := 0, ws := 0, dminMin := 0 } (le_refl 0)
    by_cases hws : (armLoop m dminf x y z).ws = 0
    · rw [ne_arms_ws_zero x y z hws]
      exact hfold
    · rw [ne_arms_ws_pos x y z hws]
      exact hfold
  · intro vs x y z hnev
    rcases vs with - | ⟨v, l⟩
    · exact le_refl 0
    · rw [nevoidN, if_neg (by simp : ¬(v :: l = []))]
      simp only [nevoidN_jit]
      exact voidFold_nonneg (v :: l) hnev 0 (0, 0, 0) (le_refl 0)
  · intro ds nef hds hnef k l hkl
    rw [dmAt, dmAt]
    apply mul_le_mul_of_nonneg_left ?_ hds
    apply Finset.sum_le_sum_of_subset_of_nonneg
      (Finset.range_subset.mpr hkl)
    intro i _ _
    exact div_nonneg (add_nonneg (hnef i) (hnef (i + 1))) (by norm_num)

theorem c9_nonneg_witness :
    ((0 : ℝ) ≤ 1 ∧ (0 : ℝ) < 2 ∧ (1 : ℝ) ≤ 2 ∧
      0 ≤ (ne_outer_jit 0 0 0 1 2 1 1 5).1) ∧
    (0 ≤ (ne_inner_jit 0 0 0 0 1 1 5).1) ∧
    ((0 : ℝ) ≤ 7 ∧ 0 ≤ (ne_gc ⟨0, 0, 0, 1, 1, 7, 8⟩ 0 0 0 2).1) ∧
    ((∀ j, 0 ≤ demoArmModel.narm j) ∧ 0 ≤ demoArmModel.na ∧
      0 ≤ (ne_arms_ne2001p demoArmModel demoDmin 0 0 0).1) ∧
    ((∀ v ∈ [gaussVoid], 0 ≤ v.nev) ∧ 0 ≤ (nevoidN [gaussVoid] 0 0 0).1) ∧
    (Monotone (dmAt 1 fun _ => (1 : ℝ))) := by
  have hnarm : ∀ j, 0 ≤ demoArmModel.narm j := by
    intro j
    norm_num [demoArmModel]
  have hnev : ∀ v ∈ [gaussVoid], 0 ≤ v.nev := by
    intro v hv
    rw [List.mem_singleton] at hv
    subst hv
    norm_num [gaussVoid]
  exact ⟨⟨by norm_num, by norm_num, by norm_num,
      c9_nonneg.1 0 0 0 1 2 1 1 5 (by norm_num) (by norm_num) (by norm_num)
        (by norm_num) (by norm_num)⟩,
    c9_nonneg.2.1 0 0 0 0 1 1 5 (by norm_num),
    ⟨by norm_num, c9_nonneg.2.2.1 ⟨0, 0, 0, 1, 1, 7, 8⟩ 0 0 0 2 (by norm_num)⟩,
    ⟨hnarm, by norm_num [demoArmModel],
      c9_nonneg.2.2.2.1 demoArmModel demoDmin 0 0 0 hnarm
        (by norm_num [demoArmModel])⟩,
    ⟨hnev, c9_nonneg.2.2.2.2.1 [gaussVoid] 0 0 0 hnev⟩,
    c9_nonneg.2.2.2.2.2 1 (fun _ => 1) (by norm_num) (fun i => by norm_num)⟩

/-- C7: (a) for every point strictly outside the Galactic-center ellipsoid
(quadratic form > 1) ne_gc returns exactly (0, 0); (b) for every point with
q > 3 for every void (strictly outside every bounding ellipsoid) the void
evaluator returns exactly zero; (c) for |y| beyond absymax = 2*rgc, ne_gc
returns (0, 0) through the early exit, and (given the configured center
offset satisfies |ygc| <= rgc, as in the shipped models) the full ellipsoid
test would return (0, 0) there as well, so the early exit never changes the
result. -/
theorem c7_outside_zero :
    (∀ (p : GcParams) (x y z a : ℝ),
      1 < (Real.sqrt ((x - p.xgc) ^ 2 + (y - p.ygc) ^ 2) / p.rgc) ^ 2 +
          (|z - p.zgc| / p.hgc) ^ 2 →
      ne_gc p x y z a = (0, 0)) ∧
    (∀ (vs : List Void) (x y z : ℝ),
      (∀ v ∈ vs, 3 < qform v x y z) → nevoidN vs x y z = (0, 0, 0, 0)) ∧
    (∀ (p : GcParams) (x y z : ℝ), 2 * p.rgc < |y| →
      ne_gc_default p x y z = (0, 0) ∧
      (|p.ygc| ≤ p.rgc → ne_gc_fulltest p x y z = (0, 0))) := by
  refine ⟨?_, ?_, ?_⟩
  · intro p x y z a h
    simp only [ne_gc, ne_gc_fulltest]
    split_ifs with h1 h2 h3
    · rfl
    · rfl
    · exact absurd h3 (by linarith)
    · rfl
  · intro vs x y z h
    have hnm : ∀ w ∈ vs, ¬ matchVoid x y z w := by
      intro w hw
      rintro (⟨-, hq⟩ | ⟨-, hq⟩) <;> linarith [h w hw]
    rcases vs with - | ⟨v, l⟩
    · rfl
    · rw [nevoidN, if_neg (by simp : ¬(v :: l = []))]
      simp only [nevoidN_jit]
      rw [voidLoopFrom_no_match hnm]
      simp
  · intro p x y z h
    constructor
    · rw [ne_gc_default, ne_gc, if_pos (by linarith : |y| > 2 * p.rgc)]
    · intro hygc
      simp only [ne_gc_fulltest]
      have h1 : |y - p.ygc| ≤ Real.sqrt ((x - p.xgc) ^ 2 + (y - p.ygc) ^ 2) := by
        rw [← Real.sqrt_sq_eq_abs]
        apply Real.sqrt_le_sqrt
        nlinarith [sq_nonneg (x - p.xgc)]
      have h2 : |y| - |p.ygc| ≤ |y - p.ygc| := abs_sub_abs_le_abs_sub y p.ygc
      have hrr : p.rgc < Real.sqrt ((x - p.xgc) ^ 2 + (y - p.ygc) ^ 2) := by
        linarith
      rw [if_pos (Or.inl hrr)]

theorem c7_outside_zero_witness :
    (1 < (Real.sqrt (((0 : ℝ) - 0) ^ 2 + ((0 : ℝ) - 0) ^ 2) / 1) ^ 2 +
        (|(2 : ℝ) - 0| / 1) ^ 2 ∧
      ne_gc ⟨0, 0, 0, 1, 1, 7, 8⟩ 0 0 2 2 = (0, 0)) ∧
    ((∀ v ∈ [gaussVoid], 3 < qform v 10 0 0) ∧
      nevoidN [gaussVoid] 10 0 0 = (0, 0, 0, 0)) ∧
    (2 * (1 : ℝ) < |(3 : ℝ)| ∧
      ne_gc_default ⟨0, 0, 0, 1, 1, 7, 8⟩ 0 3 0 = (0, 0) ∧
      |(0 : ℝ)| ≤ (1 : ℝ) ∧
      ne_gc_fulltest ⟨0, 0, 0, 1, 1, 7, 8⟩ 0 3 0 = (0, 0)) := by
  have harg : 1 < (Real.sqrt (((0 : ℝ) - 0) ^ 2 + ((0 : ℝ) - 0) ^ 2) / 1) ^ 2 +
      (|(2 : ℝ) - 0| / 1) ^ 2 := by
    have h0 : Real.sqrt (((0 : ℝ) - 0) ^ 2 + ((0 : ℝ) - 0) ^ 2) = 0 := by
      rw [show (((0 : ℝ) - 0) ^ 2 + ((0 : ℝ) - 0) ^ 2) = 0 by norm_num]
      exact Real.sqrt_zero
    rw [h0]
    rw [show |(2 : ℝ) - 0| = 2 by rw [sub_zero, abs_of_nonneg (by norm_num : (0:ℝ) ≤ 2)]]
    norm_num
  have hvq : ∀ v ∈ [gaussVoid], 3 < qform v 10 0 0 := by
    intro v hv
    rw [List.mem_singleton] at hv
    subst hv
    simp only [qform, gaussVoid]
    norm_num
  have hy3 : 2 * (1 : ℝ) < |(3 : ℝ)| := by
    rw [show |(3 : ℝ)| = 3 from abs_of_nonneg (by norm_num)]
    norm_num
  have h3 := c7_outside_zero.2.2 ⟨0, 0, 0, 1, 1, 7, 8⟩ 0 3 0 hy3
  have h00 : |(0 : ℝ)| ≤ (1 : ℝ) := by
    rw [show |(0 : ℝ)| = 0 from abs_zero]
    norm_num
  exact ⟨⟨harg, c7_outside_zero.1 ⟨0, 0, 0, 1, 1, 7, 8⟩ 0 0 2 2 harg⟩,
    ⟨hvq, c7_outside_zero.2.1 [gaussVoid] 10 0 0 hvq⟩,
    hy3, h3.1, h00, h3.2 h00⟩

/-- C10: the thin-disk component is hard-cut: whenever
((rr - A2)/1.8)^2 >= 10 — equivalently |rr - A2| >= 1.8*sqrt(10) — the
Gaussian radial factor is set to 0 rather than evaluated, so ne_inner
returns exactly zero density. -/
theorem c10_thin_disk_cutoff (x y z A2 n2 h2 F2 : ℝ) :
    (10 ≤ ((Real.sqrt (x ^ 2 + y ^ 2) - A2) / 1.8) ^ 2 →
      (ne_inner_jit x y z A2 n2 h2 F2).1 = 0) ∧
    (1.8 * Real.sqrt 10 ≤ |Real.sqrt (x ^ 2 + y ^ 2) - A2| →
      (ne_inner_jit x y z A2 n2 h2 F2).1 = 0) := by
  have key : ∀ _ : 10 ≤ ((Real.sqrt (x ^ 2 + y ^ 2) - A2) / 1.8) ^ 2,
      (ne_inner_jit x y z A2 n2 h2 F2).1 = 0 := by
    intro h
    simp only [ne_inner_jit]
    rw [if_neg (by linarith)]
    ring
  refine ⟨key, fun h => key ?_⟩
  have hsq : (1.8 * Real.sqrt 10) ^ 2 ≤ |Real.sqrt (x ^ 2 + y ^ 2) - A2| ^ 2 := by
    have h0 : (0 : ℝ) ≤ 1.8 * Real.sqrt 10 := by positivity
    exact pow_le_pow_left₀ h0 h 2
  rw [mul_pow, Real.sq_sqrt (by norm_num : (10 : ℝ) ≥ 0), sq_abs] at hsq
  rw [div_pow, le_div_iff₀ (by norm_num : (0 : ℝ) < 1.8 ^ 2)]
  linarith

theorem c10_thin_disk_cutoff_witness :
    10 ≤ ((Real.sqrt (6 ^ 2 + 0 ^ 2) - 0) / 1.8) ^ 2 ∧
    (ne_inner_jit 6 0 0 0 1 1 5).1 = 0 := by
  have hs : Real.sqrt ((6 : ℝ) ^ 2 + 0 ^ 2) = 6 := by
    rw [show ((6 : ℝ) ^ 2 + 0 ^ 2) = 6 ^ 2 by norm_num,
      Real.sqrt_sq (by norm_num : (0 : ℝ) ≤ 6)]
  have h10 : (10 : ℝ) ≤ ((Real.sqrt (6 ^ 2 + 0 ^ 2) - 0) / 1.8) ^ 2 := by
    rw [hs]; norm_num
  exact ⟨h10, (c10_thin_disk_cutoff 6 0 0 0 1 1 5).1 h10⟩

end Mwprop
